import Mathlib

/-!
Shallow embedding of the event/participant service (src/main.py, src/models.py).

The store is modelled as a list of event documents keyed by `id`; each HTTP
handler becomes a pure function from the store and its arguments to the pair
of the resulting store and either an error of the spec's taxonomy or the
handler's return value.  Raising an `HTTPException` before the `replace_item`
call leaves the store unchanged, which the pair encodes directly.
-/

/-- Value of a document field as produced by the Python layer: either a plain
string or a `datetime` object (modelled by a numeric timestamp).  Needed
because pydantic v1 does not validate field defaults, so a field annotated
`str` can in fact hold a `datetime` (src/models.py line 9). -/
inductive PyVal where
  | vStr (s : String)
  | vDatetime (t : Nat)
deriving DecidableEq

/-- Whether a stored field value is a Python string. -/
def PyVal.isStr : PyVal → Bool
  | .vStr _ => true
  | .vDatetime _ => false

/-- Participant document (src/models.py lines 5-9). -/
structure Participante where
  id : String
  name : String
  email : String
  registration_date : PyVal
deriving DecidableEq

/-- Event document (src/models.py lines 11-18).  `capacity` is declared
`int` with `ge=1`; it is non-negative, so `Nat` models it. -/
structure Evento where
  id : String
  name : String
  description : Option String
  date : String
  location : String
  capacity : Nat
  participants : List Participante
deriving DecidableEq

/-- Error taxonomy of the handlers (spec section 7).  `typeError` models the
generic 400 produced by `except Exception` in `list_participants` when Python
raises a `TypeError` while sorting heterogeneous keys. -/
inductive ApiError where
  | alreadyExists
  | notFound
  | participantNotFound
  | capacityExceeded
  | duplicateParticipant
  | invalidState
  | invalidArgument
  | typeError
deriving DecidableEq

/-- A named query parameter as passed to `container.query_items`. -/
structure CosmosParam where
  name : String
  value : String
deriving DecidableEq

/-- Pydantic construction of a `Participante` (src/models.py lines 5-9).
Supplied fields are validated against their annotations, so a supplied
`registration_date` is a string.  When it is absent the field takes the
default `default_factory=datetime.utcnow`; pydantic v1 does not validate
defaults, so the stored value is the raw `datetime` object `now`, not a
string. -/
def mkParticipante (id name email : String) (registration_date : Option String)
    (now : Nat) : Participante :=
  { id := id, name := name, email := email,
    registration_date :=
      match registration_date with
      | some s => PyVal.vStr s
      | none => PyVal.vDatetime now }

/-- Fields of a `PUT /events/{id}` body that survive `dict(exclude_unset=True)`
(src/main.py line 73): `none` means the caller did not set the field. -/
structure EventoUpdate where
  id : Option String := none
  name : Option String := none
  description : Option (Option String) := none
  date : Option String := none
  location : Option String := none
  capacity : Option Nat := none
  participants : Option (List Participante) := none
deriving DecidableEq

/-- Fields of a `PUT .../participants/{id}` body surviving
`dict(exclude_unset=True)` (src/main.py line 175). -/
structure ParticipanteUpdate where
  id : Option String := none
  name : Option String := none
  email : Option String := none
  registration_date : Option String := none
deriving DecidableEq

/-- The dict merge `existing_event.update(updated_event.dict(exclude_unset=True))`
of src/main.py line 73: supplied fields overwrite, unset fields are kept. -/
def mergeEvento (e : Evento) (u : EventoUpdate) : Evento :=
  { id := u.id.getD e.id,
    name := u.name.getD e.name,
    description := u.description.getD e.description,
    date := u.date.getD e.date,
    location := u.location.getD e.location,
    capacity := u.capacity.getD e.capacity,
    participants := u.participants.getD e.participants }

/-- The dict merge `participant.update(updated_participant.dict(exclude_unset=True))`
of src/main.py line 175.  A supplied `registration_date` is a validated
string. -/
def mergeParticipante (p : Participante) (u : ParticipanteUpdate) : Participante :=
  { id := u.id.getD p.id,
    name := u.name.getD p.name,
    email := u.email.getD p.email,
    registration_date :=
      match u.registration_date with
      | some s => PyVal.vStr s
      | none => p.registration_date }

/-- Point read `container.read_item(item=eid, partition_key=eid)`: the stored
document with id `eid`, if any. -/
def findEvent (s : List Evento) (eid : String) : Option Evento :=
  s.find? (fun e => e.id == eid)

/-- Whole-document write `container.replace_item(item=eid, body=ev)`:
the stored document with id `eid` is replaced by `ev`. -/
def replaceEvent (s : List Evento) (eid : String) (ev : Evento) : List Evento :=
  s.map (fun e => if e.id == eid then ev else e)

/-- `POST /events/` (src/main.py lines 14-23): `container.create_item` fails
with `CosmosResourceExistsError` when the id is already stored, mapped to 400
`AlreadyExists`; otherwise the payload is persisted unchanged.  No invariant
check is performed. -/
def create_event (s : List Evento) (ev : Evento) : List Evento × Except ApiError Evento :=
  match findEvent s ev.id with
  | some _ => (s, .error .alreadyExists)
  | none => (s ++ [ev], .ok ev)

/-- `PUT /events/{event_id}` (src/main.py lines 66-85): read, merge the set
fields, reject with 400 `InvalidState` when `capacity < len(participants)`
after the merge (nothing written), else write back the merged document and
return it. -/
def update_event (s : List Evento) (eid : String) (u : EventoUpdate) :
    List Evento × Except ApiError Evento :=
  match findEvent s eid with
  | none => (s, .error .notFound)
  | some ev =>
    let merged := mergeEvento ev u
    if merged.capacity < merged.participants.length then
      (s, .error .invalidState)
    else
      (replaceEvent s eid merged, .ok merged)

/-- `POST /events/{event_id}/participants/` (src/main.py lines 101-121):
capacity check first (`len(participants) >= capacity`), then duplicate-id
check, then append and write the whole event back. -/
def add_participant (s : List Evento) (eid : String) (p : Participante) :
    List Evento × Except ApiError Participante :=
  match findEvent s eid with
  | none => (s, .error .notFound)
  | some ev =>
    if ev.capacity ≤ ev.participants.length then
      (s, .error .capacityExceeded)
    else if ev.participants.any (fun q => q.id == p.id) then
      (s, .error .duplicateParticipant)
    else
      (replaceEvent s eid { ev with participants := ev.participants ++ [p] }, .ok p)

/-- `PUT /events/{event_id}/participants/{participant_id}` (src/main.py lines
165-184).  The Python code mutates the first matching dict in place and then
rebuilds the list replacing every entry whose id equals the path id by that
merged dict; since the first match's original id equals the path id, the net
effect on the original list is exactly: every entry whose id equals the path
id becomes the merge of the first match.  No uniqueness check is made against
the other participants when the merge changes the id. -/
def update_participant (s : List Evento) (eid pid : String) (u : ParticipanteUpdate) :
    List Evento × Except ApiError Participante :=
  match findEvent s eid with
  | none => (s, .error .notFound)
  | some ev =>
    match ev.participants.find? (fun q => q.id == pid) with
    | none => (s, .error .participantNotFound)
    | some p =>
      let merged := mergeParticipante p u
      let ev' := { ev with
        participants := ev.participants.map (fun q => if q.id == pid then merged else q) }
      (replaceEvent s eid ev', .ok merged)

/-- `DELETE /events/{event_id}/participants/{participant_id}` (src/main.py
lines 186-202): 404 `ParticipantNotFound` when no entry matches, otherwise the
list is rebuilt keeping the entries whose id differs and the event is written
back. -/
def delete_participant (s : List Evento) (eid pid : String) :
    List Evento × Except ApiError Unit :=
  match findEvent s eid with
  | none => (s, .error .notFound)
  | some ev =>
    match ev.participants.find? (fun q => q.id == pid) with
    | none => (s, .error .participantNotFound)
    | some _ =>
      (replaceEvent s eid
        { ev with participants := ev.participants.filter (fun q => !(q.id == pid)) },
       .ok ())

/-- Decidable equality of handler results, used to evaluate the model on
concrete inputs. -/
instance {α β : Type} [DecidableEq α] [DecidableEq β] : DecidableEq (Except α β) :=
  fun a b =>
    match a, b with
    | .error x, .error y =>
      if h : x = y then isTrue (h ▸ rfl)
      else isFalse fun hc => h (Except.error.inj hc)
    | .error _, .ok _ => isFalse fun hc => Except.noConfusion hc
    | .ok _, .error _ => isFalse fun hc => Except.noConfusion hc
    | .ok x, .ok y =>
      if h : x = y then isTrue (h ▸ rfl)
      else isFalse fun hc => h (Except.ok.inj hc)

/-- Unfolding of `update_participant` once the owning event is resolved. -/
theorem update_participant_eq_of_find {s : List Evento} {eid pid : String}
    {ev : Evento} (u : ParticipanteUpdate) (hfind : findEvent s eid = some ev) :
    update_participant s eid pid u =
      match ev.participants.find? (fun q => q.id == pid) with
      | none => (s, .error .participantNotFound)
      | some p =>
        (replaceEvent s eid
          { ev with
            participants := ev.participants.map fun q => if q.id == pid then mergeParticipante p u else q },
         .ok (mergeParticipante p u)) := by
  unfold update_participant
  rw [hfind]

/-- Unfolding of `delete_participant` once the owning event is resolved. -/
theorem delete_participant_eq_of_find {s : List Evento} {eid pid : String}
    {ev : Evento} (hfind : findEvent s eid = some ev) :
    delete_participant s eid pid =
      match ev.participants.find? (fun q => q.id == pid) with
      | none => (s, .error .participantNotFound)
      | some _ =>
        (replaceEvent s eid
          { ev with participants :=
              ev.participants.filter (fun q => !(q.id == pid)) },
         .ok ()) := by
  unfold delete_participant
  rw [hfind]

/-- Boolean list prefix test (models Python string containment, below). -/
def isPrefixB : List Char → List Char → Bool
  | [], _ => true
  | _ :: _, [] => false
  | a :: as, b :: bs => a == b && isPrefixB as bs

/-- Boolean list infix test: the first list occurs contiguously in the second. -/
def isInfixB : List Char → List Char → Bool
  | needle, [] => needle.isEmpty
  | needle, b :: bs => isPrefixB needle (b :: bs) || isInfixB needle bs

/-- Python's substring operator `needle in hay` on strings. -/
def pyContains (hay needle : String) : Bool :=
  isInfixB needle.data hay.data

/-- Whether `hay` ends with `suf` (character-wise). -/
def endsWithB (hay suf : String) : Bool :=
  isPrefixB suf.data.reverse hay.data.reverse

/-- Python's `str.upper()` restricted to the ASCII fragment the handlers use
(character-wise, kept kernel-reducible by working on the character list). -/
def pyUpper (s : String) : String := ⟨s.data.map Char.toUpper⟩

/-- Python's `str.lower()` restricted to the ASCII fragment the handlers use. -/
def pyLower (s : String) : String := ⟨s.data.map Char.toLower⟩

/-- Lexicographic code-point comparison of Python strings (`a <= b`). -/
def charListLe : List Char → List Char → Bool
  | [], _ => true
  | _ :: _, [] => false
  | a :: as, b :: bs =>
    if a.toNat < b.toNat then true
    else if b.toNat < a.toNat then false
    else charListLe as bs

/-- Gregorian leap-year rule, as used by Python's `datetime` validation. -/
def isLeap (y : Nat) : Bool :=
  (y % 4 == 0 && y % 100 != 0) || y % 400 == 0

/-- Number of days in month `m` of year `y` (Python `datetime` validation). -/
def daysInMonth (y m : Nat) : Nat :=
  if m == 2 then (if isLeap y then 29 else 28)
  else if m == 4 || m == 6 || m == 9 || m == 11 then 30
  else 31

/-- Split a character list at every dash, like Python's `split("-")`. -/
def splitDashAux : List Char → List Char → List (List Char)
  | [], acc => [acc.reverse]
  | c :: cs, acc =>
    if c = '-' then acc.reverse :: splitDashAux cs []
    else splitDashAux cs (c :: acc)

/-- Numeric value of a list of ASCII digits. -/
def digitsVal (l : List Char) : Nat :=
  l.foldl (fun n c => n * 10 + (c.toNat - 48)) 0

/-- Python's `datetime.strptime(s, "%Y-%m-%d")` as a partial function:
`%Y` is exactly four digits, `%m` one or two digits with value 1..12, `%d`
one or two digits valid for the month, the whole string must be consumed, and
the resulting date must be a real calendar date with year at least 1. -/
def strptimeYMD (s : String) : Option (Nat × Nat × Nat) :=
  match splitDashAux s.data [] with
  | [ys, ms, ds] =>
    if ys.length == 4 && ys.all Char.isDigit
        && (ms.length == 1 || ms.length == 2) && ms.all Char.isDigit
        && (ds.length == 1 || ds.length == 2) && ds.all Char.isDigit then
      let y := digitsVal ys
      let m := digitsVal ms
      let d := digitsVal ds
      if 1 ≤ y && 1 ≤ m && m ≤ 12 && 1 ≤ d && d ≤ daysInMonth y m then
        some (y, m, d)
      else none
    else none
  | _ => none

/-- Two-digit zero-padded field of `strftime`. -/
def pad2 (n : Nat) : String :=
  if n < 10 then "0" ++ toString n else toString n

/-- `date_obj.strftime("%Y-%m-%d")` (src/main.py line 50): the parsed date
printed back, with month and day zero-padded. -/
def fmtYMD : Nat × Nat × Nat → String
  | (y, m, d) => toString y ++ "-" ++ pad2 m ++ "-" ++ pad2 d

/-- Date-filter stage of `list_events` (src/main.py lines 46-52).  `if date:`
treats `None` and the empty string alike as absent; a non-empty value must
parse as `%Y-%m-%d` (else 400 `InvalidArgument`) and is appended as a
`STARTSWITH` clause with the reformatted date as parameter. -/
def dateFilterStage : Option String → Except ApiError (String × List CosmosParam)
  | none => .ok ("SELECT * FROM c WHERE 1=1", [])
  | some d =>
    if d.isEmpty then .ok ("SELECT * FROM c WHERE 1=1", [])
    else
      match strptimeYMD d with
      | some ymd =>
        .ok ("SELECT * FROM c WHERE 1=1" ++ " AND STARTSWITH(c.date, @date)",
          [⟨"@date", fmtYMD ymd⟩])
      | none => .error .invalidArgument

/-- Location-filter stage of `list_events` (src/main.py lines 54-56); again
`if location:` skips `None` and the empty string. -/
def locFilterStage : Option String → String × List CosmosParam →
    String × List CosmosParam
  | none, qp => qp
  | some l, qp =>
    if l.isEmpty then qp
    else (qp.1 ++ " AND c.location = @location", qp.2 ++ [⟨"@location", l⟩])

/-- Sort stage of `list_events` (src/main.py lines 58-59): only `date` and
`name` are recognised sort keys; `order` is interpolated verbatim, uppercased,
with no validation. -/
def sortStage (sort_by : Option String) (order q : String) : String :=
  match sort_by with
  | some sb =>
    if sb == "date" || sb == "name" then
      q ++ " ORDER BY c." ++ sb ++ " " ++ pyUpper order
    else q
  | none => q

/-- Query construction of `GET /events/` (src/main.py lines 35-64): the query
string and parameter list handed to `container.query_items`. -/
def list_events_query (date location sort_by : Option String) (order : String) :
    Except ApiError (String × List CosmosParam) :=
  match dateFilterStage date with
  | .error e => .error e
  | .ok qp =>
    let qp2 := locFilterStage location qp
    .ok (sortStage sort_by order qp2.1, qp2.2)

/-- Ascending insertion of `x` into an already sorted list: `x` goes before
the first element it compares `le` to, so equal elements keep their original
relative order, as in Python's stable sort. -/
def insertSorted (le : Participante → Participante → Bool) (x : Participante) :
    List Participante → List Participante
  | [] => [x]
  | y :: l => if le x y then x :: y :: l else y :: insertSorted le x l

/-- Stable sort of the participant list modelling Python's `list.sort`. -/
def sortParticipants (le : Participante → Participante → Bool) :
    List Participante → List Participante
  | [] => []
  | x :: l => insertSorted le x (sortParticipants le l)

/-- Ordering on `registration_date` values: Python compares two strings or two
`datetime` objects; a heterogeneous pair raises `TypeError` (handled before
the sort is attempted, see `list_participants`). -/
def pvLeB : PyVal → PyVal → Bool
  | .vStr a, .vStr b => charListLe a.data b.data
  | .vDatetime a, .vDatetime b => a ≤ b
  | _, _ => false

/-- All `registration_date` fields of the list are strings. -/
def allStrRD (ps : List Participante) : Bool :=
  ps.all fun p => p.registration_date.isStr

/-- All `registration_date` fields of the list are `datetime` objects. -/
def allDtRD (ps : List Participante) : Bool :=
  ps.all fun p => !p.registration_date.isStr

/-- Name-filter stage of `list_participants` (src/main.py lines 149-150):
`if name:` skips `None` and the empty string; otherwise a case-insensitive
substring test `name.lower() in p["name"].lower()`. -/
def applyNameFilter (name : Option String) (ps : List Participante) :
    List Participante :=
  match name with
  | none => ps
  | some n =>
    if n.isEmpty then ps
    else ps.filter fun p => pyContains (pyLower p.name) (pyLower n)

/-- Email-filter stage of `list_participants` (src/main.py lines 152-153). -/
def applyEmailFilter (email : Option String) (ps : List Participante) :
    List Participante :=
  match email with
  | none => ps
  | some m =>
    if m.isEmpty then ps
    else ps.filter fun p => pyContains (pyLower p.email) (pyLower m)

/-- `GET /events/{event_id}/participants/` (src/main.py lines 137-163):
read the event, filter by name then email, and sort in memory when `sort_by`
is `name` or `registration_date` (`reverse` exactly when `order.lower()` is
`desc`).  Sorting mixed string/datetime registration dates raises `TypeError`
in Python, which the handler's `except Exception` turns into a 400. -/
def list_participants (s : List Evento) (eid : String)
    (name email sort_by : Option String) (order : String) :
    Except ApiError (List Participante) :=
  match findEvent s eid with
  | none => .error .notFound
  | some ev =>
    let ps := applyEmailFilter email (applyNameFilter name ev.participants)
    if sort_by == some "name" then
      let le : Participante → Participante → Bool :=
        if pyLower order == "desc" then
          fun a b => charListLe b.name.data a.name.data
        else
          fun a b => charListLe a.name.data b.name.data
      .ok (sortParticipants le ps)
    else if sort_by == some "registration_date" then
      if ps.length ≤ 1 || allStrRD ps || allDtRD ps then
        let le : Participante → Participante → Bool :=
          if pyLower order == "desc" then
            fun a b => pvLeB b.registration_date a.registration_date
          else
            fun a b => pvLeB a.registration_date b.registration_date
        .ok (sortParticipants le ps)
      else .error .typeError
    else .ok ps

/-- A found event carries the id it was looked up by. -/
theorem findEvent_id {s : List Evento} {eid : String} {ev : Evento}
    (h : findEvent s eid = some ev) : ev.id = eid := by
  simpa using List.find?_some h

/-- A found event is a member of the store. -/
theorem mem_of_findEvent {s : List Evento} {eid : String} {ev : Evento}
    (h : findEvent s eid = some ev) : ev ∈ s :=
  List.mem_of_find?_eq_some h

/-- Re-reading after a replace write returns the written document. -/
theorem findEvent_replaceEvent {s : List Evento} {eid : String} {ev ev' : Evento}
    (hev : findEvent s eid = some ev) (hid : ev'.id = eid) :
    findEvent (replaceEvent s eid ev') eid = some ev' := by
  induction s with
  | nil => simp [findEvent] at hev
  | cons e t ih =>
    by_cases h : e.id = eid
    · simp [replaceEvent, findEvent, h, hid]
    · have hev' : findEvent t eid = some ev := by
        simpa [findEvent, List.find?_cons_of_neg, h] using hev
      have := ih hev'
      simpa [replaceEvent, findEvent, List.find?_cons_of_neg, h] using this

/-- Every member of the store after a replace write is the written document or
an untouched member of the old store. -/
theorem mem_replaceEvent {s : List Evento} {eid : String} {ev' e : Evento}
    (h : e ∈ replaceEvent s eid ev') : e = ev' ∨ e ∈ s := by
  simp only [replaceEvent, List.mem_map] at h
  obtain ⟨x, hx, hfx⟩ := h
  by_cases hxe : x.id == eid
  · rw [if_pos hxe] at hfx
    exact Or.inl hfx.symm
  · rw [if_neg hxe] at hfx
    exact Or.inr (hfx ▸ hx)

/-- Mapping a function that fixes every member leaves the list unchanged. -/
theorem map_id_on {α : Type} {f : α → α} {l : List α} (h : ∀ x ∈ l, f x = x) :
    l.map f = l := by
  induction l with
  | nil => rfl
  | cons a t ih =>
    simp only [List.map_cons, h a (by simp)]
    rw [ih fun x hx => h x (by simp [hx])]

/-- The first match of a decomposed list whose earlier entries all fail the
predicate. -/
theorem find?_middle {pre post : List Participante} {p : Participante}
    {pred : Participante → Bool}
    (hpre : ∀ q ∈ pre, pred q = false) (hp : pred p = true) :
    (pre ++ p :: post).find? pred = some p := by
  induction pre with
  | nil => simp [List.find?_cons_of_pos, hp]
  | cons a t ih =>
    have ha : pred a = false := hpre a (by simp)
    have hna : ¬ pred a = true := by simp [ha]
    rw [List.cons_append, List.find?_cons_of_neg _ hna]
    exact ih fun q hq => hpre q (by simp [hq])

/-- The empty word occurs in every word. -/
theorem isInfixB_nil (l : List Char) : isInfixB [] l = true := by
  cases l <;> simp [isInfixB, isPrefixB]

/-- Every list is a prefix of itself extended on the right. -/
theorem isPrefixB_append_self (l m : List Char) : isPrefixB l (l ++ m) = true := by
  induction l with
  | nil => simp [isPrefixB]
  | cons a t ih => simp [isPrefixB, ih]

/-- A concatenation ends with its right factor. -/
theorem endsWithB_append (a b : String) : endsWithB (a ++ b) b = true := by
  simp only [endsWithB, String.data_append, List.reverse_append]
  exact isPrefixB_append_self b.data.reverse a.data.reverse

/-- Python's `"" in s` is always true. -/
theorem pyContains_empty (hay : String) : pyContains hay "" = true :=
  isInfixB_nil hay.data

/-- Predicate of the name filter as the spec words it: the participant's name
contains the filter as a case-insensitive substring, with an absent filter
accepting everything. -/
def namePred (name : Option String) (p : Participante) : Bool :=
  match name with
  | none => true
  | some n => pyContains (pyLower p.name) (pyLower n)

/-- Predicate of the email filter as the spec words it. -/
def emailPred (email : Option String) (p : Participante) : Bool :=
  match email with
  | none => true
  | some m => pyContains (pyLower p.email) (pyLower m)

/-- The name predicate at a supplied filter, as a function. -/
theorem namePred_some (n : String) :
    namePred (some n) = fun p => pyContains (pyLower p.name) (pyLower n) :=
  funext fun _ => rfl

/-- The email predicate at a supplied filter, as a function. -/
theorem emailPred_some (m : String) :
    emailPred (some m) = fun p => pyContains (pyLower p.email) (pyLower m) :=
  funext fun _ => rfl

/-- The sequential name-filter stage agrees with the spec predicate: skipping
the empty filter is harmless because the empty substring matches every name. -/
theorem applyNameFilter_eq (name : Option String) (ps : List Participante) :
    applyNameFilter name ps = ps.filter (namePred name) := by
  cases name with
  | none =>
    show ps = ps.filter (namePred none)
    exact (List.filter_eq_self.mpr fun a _ => rfl).symm
  | some n =>
    show (if n.isEmpty then ps
          else ps.filter fun p => pyContains (pyLower p.name) (pyLower n))
        = ps.filter (namePred (some n))
    rw [namePred_some]
    by_cases he : n.isEmpty
    · have hn : n = "" := (String.isEmpty_iff n).mp he
      subst hn
      rw [if_pos he]
      refine (List.filter_eq_self.mpr fun a _ => ?_).symm
      show pyContains (pyLower a.name) (pyLower ("" : String)) = true
      have hlow : pyLower ("" : String) = "" := by decide
      rw [hlow]
      exact pyContains_empty _
    · rw [if_neg he]

/-- The sequential email-filter stage agrees with the spec predicate. -/
theorem applyEmailFilter_eq (email : Option String) (ps : List Participante) :
    applyEmailFilter email ps = ps.filter (emailPred email) := by
  cases email with
  | none =>
    show ps = ps.filter (emailPred none)
    exact (List.filter_eq_self.mpr fun a _ => rfl).symm
  | some m =>
    show (if m.isEmpty then ps
          else ps.filter fun p => pyContains (pyLower p.email) (pyLower m))
        = ps.filter (emailPred (some m))
    rw [emailPred_some]
    by_cases he : m.isEmpty
    · have hm : m = "" := (String.isEmpty_iff m).mp he
      subst hm
      rw [if_pos he]
      refine (List.filter_eq_self.mpr fun a _ => ?_).symm
      show pyContains (pyLower a.email) (pyLower ("" : String)) = true
      have hlow : pyLower ("" : String) = "" := by decide
      rw [hlow]
      exact pyContains_empty _
    · rw [if_neg he]

/-- Fresh event `e1` with capacity 2 and no participants (spec section 8
example). -/
def baseEvent : Evento :=
  { id := "e1", name := "Conferencia", description := none,
    date := "2024-09-15", location := "Centro", capacity := 2,
    participants := [] }

/-- Participant payload with the given id and a supplied registration date. -/
def mkP (i : String) : Participante :=
  { id := i, name := "Nom " ++ i, email := "n@example.com",
    registration_date := PyVal.vStr "2024-01-01T00:00:00" }

/-- Store of the section-8 scenario after Add p1. -/
def scenStore1 : List Evento := (add_participant [baseEvent] "e1" (mkP "p1")).1

/-- Store of the section-8 scenario after Add p1 and Add p2. -/
def scenStore2 : List Evento := (add_participant scenStore1 "e1" (mkP "p2")).1

/-- Payload with two participants but capacity one; pydantic accepts it since
`capacity` is only constrained to be at least 1 and no validator relates it to
the participants list. -/
def badEvent : Evento :=
  { id := "e0", name := "Over", description := none, date := "2024-09-15",
    location := "L", capacity := 1,
    participants := [mkP "p1", mkP "p2"] }

/-- C1, counterexample: `create_event` performs no invariant check, so a
create payload already containing more participants than its capacity is
persisted as-is and the stored event violates
`capacity >= count(participants)` right after the mutation. -/
theorem C1_counterexample :
    (create_event [] badEvent).2 = .ok badEvent ∧
    (create_event [] badEvent).1 = [badEvent] ∧
    ¬ badEvent.participants.length ≤ badEvent.capacity := by
  decide

/-- C1, amended: every mutating operation preserves the invariant
`count(participants) <= capacity` on every stored event, provided it held
beforehand — and, for creation, provided the create payload itself satisfies
it, because `create_event` checks nothing (see `C1_counterexample`);
`update_event` enforces the invariant on the merged document itself. -/
theorem C1_invariant_preserved (s : List Evento)
    (hs : ∀ e ∈ s, e.participants.length ≤ e.capacity) :
    (∀ ev, ev.participants.length ≤ ev.capacity →
        ∀ e ∈ (create_event s ev).1, e.participants.length ≤ e.capacity) ∧
    (∀ eid u, ∀ e ∈ (update_event s eid u).1,
        e.participants.length ≤ e.capacity) ∧
    (∀ eid p, ∀ e ∈ (add_participant s eid p).1,
        e.participants.length ≤ e.capacity) ∧
    (∀ eid pid u, ∀ e ∈ (update_participant s eid pid u).1,
        e.participants.length ≤ e.capacity) ∧
    (∀ eid pid, ∀ e ∈ (delete_participant s eid pid).1,
        e.participants.length ≤ e.capacity) := by
  refine ⟨?_, ?_, ?_, ?_, ?_⟩
  · intro ev hev e he
    cases hfind : findEvent s ev.id with
    | some x =>
      have h1 : (create_event s ev).1 = s := by unfold create_event; rw [hfind]
      rw [h1] at he
      exact hs e he
    | none =>
      have h1 : (create_event s ev).1 = s ++ [ev] := by unfold create_event; rw [hfind]
      rw [h1] at he
      rcases List.mem_append.mp he with h | h
      · exact hs e h
      · rw [List.mem_singleton.mp h]
        exact hev
  · intro eid u e he
    cases hfind : findEvent s eid with
    | none =>
      have h1 : (update_event s eid u).1 = s := by unfold update_event; rw [hfind]
      rw [h1] at he
      exact hs e he
    | some ev =>
      have hstep : update_event s eid u =
          (if (mergeEvento ev u).capacity < (mergeEvento ev u).participants.length then
            (s, .error .invalidState)
           else (replaceEvent s eid (mergeEvento ev u), .ok (mergeEvento ev u))) := by
        unfold update_event; rw [hfind]
      by_cases hc : (mergeEvento ev u).capacity < (mergeEvento ev u).participants.length
      · rw [hstep, if_pos hc] at he
        exact hs e he
      · rw [hstep, if_neg hc] at he
        rcases mem_replaceEvent he with rfl | hmem
        · exact Nat.le_of_not_lt hc
        · exact hs e hmem
  · intro eid p e he
    cases hfind : findEvent s eid with
    | none =>
      have h1 : (add_participant s eid p).1 = s := by unfold add_participant; rw [hfind]
      rw [h1] at he
      exact hs e he
    | some ev =>
      have hstep : add_participant s eid p =
          (if ev.capacity ≤ ev.participants.length then (s, .error .capacityExceeded)
           else if ev.participants.any (fun q => q.id == p.id) then
             (s, .error .duplicateParticipant)
           else (replaceEvent s eid { ev with participants := ev.participants ++ [p] },
             .ok p)) := by
        unfold add_participant; rw [hfind]
      by_cases hc : ev.capacity ≤ ev.participants.length
      · rw [hstep, if_pos hc] at he
        exact hs e he
      · by_cases hd : ev.participants.any (fun q => q.id == p.id)
        · rw [hstep, if_neg hc, if_pos hd] at he
          exact hs e he
        · rw [hstep, if_neg hc, if_neg hd] at he
          rcases mem_replaceEvent he with rfl | hmem
          · show (ev.participants ++ [p]).length ≤ ev.capacity
            have hlt : ev.participants.length < ev.capacity := Nat.lt_of_not_le hc
            simp only [List.length_append, List.length_cons, List.length_nil]
            omega
          · exact hs e hmem
  · intro eid pid u e he
    cases hfind : findEvent s eid with
    | none =>
      have h1 : (update_participant s eid pid u).1 = s := by
        unfold update_participant; rw [hfind]
      rw [h1] at he
      exact hs e he
    | some ev =>
      rw [update_participant_eq_of_find u hfind] at he
      cases hfp : ev.participants.find? (fun q => q.id == pid) with
      | none =>
        rw [hfp] at he
        exact hs e he
      | some p =>
        rw [hfp] at he
        rcases mem_replaceEvent he with rfl | hmem
        · show (ev.participants.map
            (fun q => if q.id == pid then mergeParticipante p u else q)).length
              ≤ ev.capacity
          rw [List.length_map]
          exact hs ev (mem_of_findEvent hfind)
        · exact hs e hmem
  · intro eid pid e he
    cases hfind : findEvent s eid with
    | none =>
      have h1 : (delete_participant s eid pid).1 = s := by
        unfold delete_participant; rw [hfind]
      rw [h1] at he
      exact hs e he
    | some ev =>
      rw [delete_participant_eq_of_find hfind] at he
      cases hfp : ev.participants.find? (fun q => q.id == pid) with
      | none =>
        rw [hfp] at he
        exact hs e he
      | some p =>
        rw [hfp] at he
        rcases mem_replaceEvent he with rfl | hmem
        · show (ev.participants.filter (fun q => !(q.id == pid))).length
            ≤ ev.capacity
          exact le_trans (List.length_filter_le _ _)
            (hs ev (mem_of_findEvent hfind))
        · exact hs e hmem

/-- C1, witness: concrete instance of the preservation theorem — after adding
a participant to the empty two-capacity event, the stored event still
satisfies the invariant. -/
theorem C1_invariant_preserved_witness :
    ({ baseEvent with participants := baseEvent.participants ++ [mkP "p1"] }
        : Evento).participants.length ≤
      ({ baseEvent with participants := baseEvent.participants ++ [mkP "p1"] }
        : Evento).capacity :=
  (C1_invariant_preserved [baseEvent] (by decide)).2.2.1 "e1" (mkP "p1")
    { baseEvent with participants := baseEvent.participants ++ [mkP "p1"] }
    (by decide)

/-- C2, counterexample: in the section-8 scenario, after `p1` and `p2` are
enrolled the event is at capacity, so re-adding `p1` hits the capacity check
— which runs before the duplicate check — and fails with `CapacityExceeded`,
not `DuplicateParticipant` as the claim states. -/
theorem C2_counterexample :
    (add_participant scenStore2 "e1" (mkP "p1")).2 ≠
      .error .duplicateParticipant ∧
    (add_participant scenStore2 "e1" (mkP "p1")).2 = .error .capacityExceeded := by
  decide

/-- C2, amended: Add p1 then Add p2 succeed leaving two participants; Add p3
fails with CapacityExceeded; and re-adding p1 also fails with
CapacityExceeded, because the capacity check precedes the duplicate check and
the event is already full. -/
theorem C2_scenario :
    (add_participant [baseEvent] "e1" (mkP "p1")).2 = .ok (mkP "p1") ∧
    (add_participant scenStore1 "e1" (mkP "p2")).2 = .ok (mkP "p2") ∧
    (findEvent scenStore2 "e1").map (fun e => e.participants.length) = some 2 ∧
    add_participant scenStore2 "e1" (mkP "p3") =
      (scenStore2, .error .capacityExceeded) ∧
    add_participant scenStore2 "e1" (mkP "p1") =
      (scenStore2, .error .capacityExceeded) := by
  decide

/-- C3: for an existing event, `Add` fails with `CapacityExceeded` when the
list has reached capacity (store unchanged); below capacity it fails with
`DuplicateParticipant` when an existing participant shares the new id (store
unchanged); otherwise it appends the participant at the end of the stored
list, which grows by exactly one with all prior entries in place. -/
theorem C3_add_semantics (s : List Evento) (eid : String) (ev : Evento)
    (p : Participante) (hev : findEvent s eid = some ev) :
    (ev.capacity ≤ ev.participants.length →
        add_participant s eid p = (s, .error .capacityExceeded)) ∧
    (ev.participants.length < ev.capacity →
        (∃ q ∈ ev.participants, q.id = p.id) →
        add_participant s eid p = (s, .error .duplicateParticipant)) ∧
    (ev.participants.length < ev.capacity →
        (∀ q ∈ ev.participants, q.id ≠ p.id) →
        add_participant s eid p =
          (replaceEvent s eid { ev with participants := ev.participants ++ [p] },
           .ok p) ∧
        findEvent (add_participant s eid p).1 eid =
          some { ev with participants := ev.participants ++ [p] } ∧
        (ev.participants ++ [p]).length = ev.participants.length + 1) := by
  have hstep : add_participant s eid p =
      (if ev.capacity ≤ ev.participants.length then (s, .error .capacityExceeded)
       else if ev.participants.any (fun q => q.id == p.id) then
         (s, .error .duplicateParticipant)
       else (replaceEvent s eid { ev with participants := ev.participants ++ [p] },
         .ok p)) := by
    unfold add_participant; rw [hev]
  refine ⟨fun hcap => ?_, fun hcap hdup => ?_, fun hcap hnodup => ?_⟩
  · rw [hstep, if_pos hcap]
  · have hany : ev.participants.any (fun q => q.id == p.id) = true := by
      obtain ⟨q, hq, hqid⟩ := hdup
      exact List.any_eq_true.mpr ⟨q, hq, by simp [hqid]⟩
    rw [hstep, if_neg (by omega), if_pos hany]
  · have hany : ¬ ev.participants.any (fun q => q.id == p.id) = true := by
      simp only [List.any_eq_true, not_exists]
      intro q
      simp only [not_and]
      intro hq
      simp [hnodup q hq]
    have hmain : add_participant s eid p =
        (replaceEvent s eid { ev with participants := ev.participants ++ [p] },
         .ok p) := by
      rw [hstep, if_neg (by omega), if_neg hany]
    refine ⟨hmain, ?_, by simp⟩
    rw [hmain]
    exact findEvent_replaceEvent hev (@findEvent_id s eid ev hev)

/-- C3, witness: adding `p1` to the fresh two-capacity event appends it and
the stored list grows from zero to one entry. -/
theorem C3_add_semantics_witness :
    add_participant [baseEvent] "e1" (mkP "p1") =
      (replaceEvent [baseEvent] "e1"
        { baseEvent with participants := baseEvent.participants ++ [mkP "p1"] },
       .ok (mkP "p1")) ∧
    findEvent (add_participant [baseEvent] "e1" (mkP "p1")).1 "e1" =
      some { baseEvent with participants := baseEvent.participants ++ [mkP "p1"] } ∧
    (baseEvent.participants ++ [mkP "p1"]).length =
      baseEvent.participants.length + 1 :=
  (C3_add_semantics [baseEvent] "e1" baseEvent (mkP "p1") (by decide)).2.2
    (by decide) (by decide)

/-- C4: updating an existing event merges exactly the supplied fields; when
the merged document would violate `capacity >= len(participants)` the handler
fails with `InvalidState` and the store is untouched, otherwise the full
merged document is written back and returned. -/
theorem C4_update_event (s : List Evento) (eid : String) (ev : Evento)
    (u : EventoUpdate) (hev : findEvent s eid = some ev) :
    ((mergeEvento ev u).capacity < (mergeEvento ev u).participants.length →
        update_event s eid u = (s, .error .invalidState)) ∧
    ((mergeEvento ev u).participants.length ≤ (mergeEvento ev u).capacity →
        update_event s eid u =
          (replaceEvent s eid (mergeEvento ev u), .ok (mergeEvento ev u))) := by
  have hstep : update_event s eid u =
      (if (mergeEvento ev u).capacity < (mergeEvento ev u).participants.length then
        (s, .error .invalidState)
       else (replaceEvent s eid (mergeEvento ev u), .ok (mergeEvento ev u))) := by
    unfold update_event; rw [hev]
  exact ⟨fun h => by rw [hstep, if_pos h], fun h => by rw [hstep, if_neg (by omega)]⟩

/-- Event `e4` with two enrolled participants and capacity two. -/
def fullEvent : Evento :=
  { id := "e4", name := "Full", description := none, date := "2024-09-15",
    location := "L", capacity := 2, participants := [mkP "p1", mkP "p2"] }

/-- C4, witness: shrinking `capacity` of a full two-participant event to one
fails with `InvalidState` and leaves the store unchanged. -/
theorem C4_update_event_witness :
    update_event [fullEvent] "e4" { capacity := some 1 } =
      ([fullEvent], .error .invalidState) :=
  (C4_update_event [fullEvent] "e4" fullEvent { capacity := some 1 }
    (by decide)).1 (by decide)

/-- C5: the claim that an `Add` without an explicit registration_date stores a
string timestamp is broken by the code itself: the pydantic default
`default_factory=datetime.utcnow` (src/models.py line 9) produces a raw
`datetime` object and pydantic v1 never validates defaults against the `str`
annotation, so the participant is stored with a non-string
registration_date equal to the creation-time clock reading. -/
theorem C5_registration_date_not_string :
    (mkParticipante "p1" "Ana" "ana@example.com" none 1000).registration_date =
      PyVal.vDatetime 1000 ∧
    PyVal.isStr
      (mkParticipante "p1" "Ana" "ana@example.com" none 1000).registration_date =
      false ∧
    ((findEvent (add_participant [baseEvent] "e1"
        (mkParticipante "p1" "Ana" "ana@example.com" none 1000)).1 "e1").map
      fun e => e.participants.map fun p => PyVal.isStr p.registration_date) =
      some [false] := by
  decide

/-- C6: listing participants with name and email filters (and no sort key)
returns exactly the stored participants whose lowered name contains the
lowered name filter and whose lowered email contains the lowered email
filter; an absent filter accepts everything. -/
theorem C6_list_participants_filter (s : List Evento) (eid : String)
    (ev : Evento) (name email : Option String)
    (hev : findEvent s eid = some ev) :
    list_participants s eid name email none "asc" =
      .ok (ev.participants.filter fun p => namePred name p && emailPred email p) := by
  have hstep : list_participants s eid name email none "asc" =
      .ok (applyEmailFilter email (applyNameFilter name ev.participants)) := by
    unfold list_participants
    rw [hev]
    rfl
  rw [hstep, applyEmailFilter_eq, applyNameFilter_eq, List.filter_filter]
  exact congrArg _ (List.filter_congr fun a _ => Bool.and_comm _ _)

/-- Participant whose lowered name contains `jo` and whose email contains
`example.com`. -/
def demoP1 : Participante :=
  { id := "p1", name := "John Doe", email := "john@example.com",
    registration_date := PyVal.vStr "2024-01-01T10:00:00" }

/-- Participant matching neither demo filter. -/
def demoP2 : Participante :=
  { id := "p2", name := "Maria", email := "maria@test.org",
    registration_date := PyVal.vStr "2024-01-02T10:00:00" }

/-- Event with the two demo participants. -/
def demoEvent : Evento :=
  { id := "e6", name := "Demo", description := none, date := "2024-09-15",
    location := "L", capacity := 10, participants := [demoP1, demoP2] }

/-- C6, witness: the `jo` and `example.com` filters of the spec example keep
exactly the first demo participant. -/
theorem C6_witness :
    list_participants [demoEvent] "e6" (some "jo") (some "example.com")
      none "asc" = .ok [demoP1] := by
  have h := C6_list_participants_filter [demoEvent] "e6" demoEvent
    (some "jo") (some "example.com") (by decide)
  rw [h]
  decide

/-- C7: deleting a participant of an event whose participant ids are pairwise
distinct removes exactly that entry — re-reading the event yields a list
without the id, one entry shorter, with the remaining entries in their
original relative order — while deleting an absent id fails with
`ParticipantNotFound` leaving the store unchanged. -/
theorem C7_delete_semantics (s : List Evento) (eid pid : String) (ev : Evento)
    (hev : findEvent s eid = some ev)
    (hnd : ev.participants.Pairwise fun a b => a.id ≠ b.id) :
    ((∀ q ∈ ev.participants, q.id ≠ pid) →
        delete_participant s eid pid = (s, .error .participantNotFound)) ∧
    (∀ p pre post, ev.participants = pre ++ p :: post → p.id = pid →
        delete_participant s eid pid =
          (replaceEvent s eid { ev with participants := pre ++ post }, .ok ()) ∧
        findEvent (delete_participant s eid pid).1 eid =
          some { ev with participants := pre ++ post } ∧
        (pre ++ post).length + 1 = ev.participants.length ∧
        (∀ q ∈ pre ++ post, q.id ≠ pid)) := by
  constructor
  · intro hmiss
    have hfp : ev.participants.find? (fun q => q.id == pid) = none :=
      List.find?_eq_none.mpr fun q hq => by simp [hmiss q hq]
    rw [delete_participant_eq_of_find hev, hfp]
  · intro p pre post hdec hid
    have hndd : (pre ++ p :: post).Pairwise (fun a b => a.id ≠ b.id) := hdec ▸ hnd
    obtain ⟨hnd1, hnd2, hnd3⟩ := List.pairwise_append.mp hndd
    have hpre : ∀ q ∈ pre, (q.id == pid) = false := by
      intro q hq
      have hqp : q.id ≠ p.id := hnd3 q hq p (by simp)
      simp [hid ▸ hqp]
    have hpost : ∀ q ∈ post, q.id ≠ pid := by
      intro q hq
      have hpq : p.id ≠ q.id := (List.pairwise_cons.mp hnd2).1 q hq
      exact fun h => hpq (by rw [hid, h])
    have hfp : ev.participants.find? (fun q => q.id == pid) = some p := by
      rw [hdec]
      exact find?_middle hpre (by simp [hid])
    have hfilter : ev.participants.filter (fun q => !(q.id == pid)) = pre ++ post := by
      rw [hdec, List.filter_append]
      have h1 : pre.filter (fun q => !(q.id == pid)) = pre :=
        List.filter_eq_self.mpr fun q hq => by simp [hpre q hq]
      have h2 : (p :: post).filter (fun q => !(q.id == pid)) = post := by
        rw [List.filter_cons, if_neg (by simp [hid])]
        exact List.filter_eq_self.mpr fun q hq => by simp [hpost q hq]
      rw [h1, h2]
    have hdel : delete_participant s eid pid =
        (replaceEvent s eid { ev with participants := pre ++ post }, .ok ()) := by
      rw [delete_participant_eq_of_find hev, hfp, hfilter]
    refine ⟨hdel, ?_, ?_, ?_⟩
    · rw [hdel]
      exact findEvent_replaceEvent hev (@findEvent_id s eid ev hev)
    · rw [hdec]
      simp only [List.length_append, List.length_cons]
      omega
    · intro q hq
      rcases List.mem_append.mp hq with h | h
      · simpa using hpre q h
      · exact hpost q h

/-- C7, witness: deleting an id not enrolled in the demo event fails with
`ParticipantNotFound` and leaves the store unchanged. -/
theorem C7_witness :
    delete_participant [demoEvent] "e6" "zz" =
      ([demoEvent], .error .participantNotFound) :=
  (C7_delete_semantics [demoEvent] "e6" "zz" demoEvent (by decide)
    (by decide)).1 (by decide)

/-- Shape of the query string produced by the date-filter stage: the base
query, extended by the STARTSWITH clause when a date filter was applied. -/
theorem dateFilterStage_query (dq : Option String) (qp : String × List CosmosParam)
    (h : dateFilterStage dq = .ok qp) :
    qp.1 = "SELECT * FROM c WHERE 1=1" ∨
    qp.1 = "SELECT * FROM c WHERE 1=1" ++ " AND STARTSWITH(c.date, @date)" := by
  cases dq with
  | none =>
    simp only [dateFilterStage] at h
    cases h
    exact Or.inl rfl
  | some d =>
    simp only [dateFilterStage] at h
    by_cases he : d.isEmpty = true
    · rw [if_pos he] at h
      cases h
      exact Or.inl rfl
    · rw [if_neg he] at h
      cases hp : strptimeYMD d with
      | some ymd =>
        rw [hp] at h
        cases h
        exact Or.inr rfl
      | none =>
        rw [hp] at h
        exact absurd h (by simp)

/-- Shape of the query string after the location-filter stage. -/
theorem locFilterStage_query (loc : Option String) (qp : String × List CosmosParam) :
    (locFilterStage loc qp).1 = qp.1 ∨
    (locFilterStage loc qp).1 = qp.1 ++ " AND c.location = @location" := by
  cases loc with
  | none => exact Or.inl rfl
  | some l =>
    simp only [locFilterStage]
    by_cases he : l.isEmpty = true
    · rw [if_pos he]
      exact Or.inl rfl
    · rw [if_neg he]
      exact Or.inr rfl

/-- C8, counterexample: the empty string is a supplied date filter that does
not parse as YYYY-MM-DD, yet `if date:` treats any falsy value as absent, so
the listing proceeds without `InvalidArgument`. -/
theorem C8_counterexample :
    strptimeYMD "" = none ∧
    list_events_query (some "") none none "asc" =
      .ok ("SELECT * FROM c WHERE 1=1", []) ∧
    list_events_query (some "") none none "asc" ≠ .error .invalidArgument := by
  decide

/-- C8, amended: a supplied non-empty date filter that does not parse as
YYYY-MM-DD makes event listing fail with `InvalidArgument` (an empty date
filter is treated as absent); and a supplied sort key outside date and name is
silently ignored: the result equals the unsorted query, whose text contains no
ORDER BY clause. -/
theorem C8_list_events_errors :
    (∀ d loc sb ord, d ≠ "" → strptimeYMD d = none →
        list_events_query (some d) loc sb ord = .error .invalidArgument) ∧
    (∀ dq loc sb ord, sb ≠ some "date" → sb ≠ some "name" →
        list_events_query dq loc sb ord = list_events_query dq loc none ord ∧
        (∀ q ps, list_events_query dq loc sb ord = .ok (q, ps) →
          pyContains q "ORDER BY" = false)) := by
  constructor
  · intro d loc sb ord hd hparse
    have he : ¬ d.isEmpty = true := fun h => hd ((String.isEmpty_iff d).mp h)
    have hdf : dateFilterStage (some d) = .error .invalidArgument := by
      simp only [dateFilterStage]
      rw [if_neg he, hparse]
    unfold list_events_query
    rw [hdf]
  · intro dq loc sb ord h1 h2
    have hsort : ∀ q, sortStage sb ord q = q := by
      intro q
      cases sb with
      | none => rfl
      | some x =>
        have hxd : x ≠ "date" := fun h => h1 (by rw [h])
        have hxn : x ≠ "name" := fun h => h2 (by rw [h])
        show (if (x == "date" || x == "name") = true then
            q ++ " ORDER BY c." ++ x ++ " " ++ pyUpper ord else q) = q
        rw [if_neg (by simp [hxd, hxn])]
    constructor
    · unfold list_events_query
      cases hdf : dateFilterStage dq with
      | error e => rfl
      | ok qp =>
        show Except.ok (sortStage sb ord (locFilterStage loc qp).1,
            (locFilterStage loc qp).2) =
          Except.ok (sortStage none ord (locFilterStage loc qp).1,
            (locFilterStage loc qp).2)
        rw [hsort]
        rfl
    · intro q ps hok
      unfold list_events_query at hok
      cases hdf : dateFilterStage dq with
      | error e =>
        rw [hdf] at hok
        exact absurd hok (by simp)
      | ok qp =>
        rw [hdf] at hok
        have hok2 : Except.ok (sortStage sb ord (locFilterStage loc qp).1,
            (locFilterStage loc qp).2) =
            (Except.ok (q, ps) : Except ApiError (String × List CosmosParam)) := hok
        have hpair := Except.ok.inj hok2
        have hq : sortStage sb ord (locFilterStage loc qp).1 = q :=
          congrArg Prod.fst hpair
        rw [hsort] at hq
        rw [← hq]
        rcases locFilterStage_query loc qp with hB | hB <;>
          rcases dateFilterStage_query dq qp hdf with hA | hA <;>
            rw [hB, hA] <;> decide

/-- C8, witness: the unparseable date `2024-13-45` (month 13) makes the
listing fail with `InvalidArgument`. -/
theorem C8_witness :
    list_events_query (some "2024-13-45") none none "asc" =
      .error .invalidArgument :=
  C8_list_events_errors.1 "2024-13-45" none none "asc" (by decide) (by decide)

/-- Participant `Ana`, first holder of the id `p1`. -/
def dupA : Participante :=
  { id := "p1", name := "Ana", email := "ana@example.com",
    registration_date := PyVal.vStr "2024-01-01T10:00:00" }

/-- Participant `Berta`, second holder of the same id `p1`; such a state is
reachable because participant update never re-checks id uniqueness. -/
def dupB : Participante :=
  { id := "p1", name := "Berta", email := "berta@example.com",
    registration_date := PyVal.vStr "2024-01-02T10:00:00" }

/-- Event holding two participants that share the id `p1`. -/
def dupEvent : Evento :=
  { id := "e9", name := "Dup", description := none, date := "2024-09-15",
    location := "L", capacity := 5, participants := [dupA, dupB] }

/-- C9, counterexample: on an event whose participant ids are not pairwise
distinct the claim fails — updating `p1` rewrites every entry carrying that
id, so another participant (`Berta`) does not stay unchanged: both stored
entries end up being the merged first match. -/
theorem C9_counterexample :
    ((findEvent (update_participant [dupEvent] "e9" "p1"
        { name := some "Xena" }).1 "e9").map
      fun e => e.participants.map fun q => q.name) = some ["Xena", "Xena"] ∧
    dupEvent.participants.map (fun q => q.name) = ["Ana", "Berta"] := by
  decide

/-- C9, amended: on an event whose participant ids are pairwise distinct,
updating a present participant merges exactly the supplied fields into it and
replaces it in place — same position, all other participants and all other
event fields untouched — and succeeds with no uniqueness re-check whatever id
the merge produces (the statement imposes no condition on `u.id`). -/
theorem C9_update_semantics (s : List Evento) (eid pid : String) (ev : Evento)
    (p : Participante) (u : ParticipanteUpdate) (pre post : List Participante)
    (hev : findEvent s eid = some ev)
    (hnd : ev.participants.Pairwise fun a b => a.id ≠ b.id)
    (hdec : ev.participants = pre ++ p :: post)
    (hid : p.id = pid) :
    update_participant s eid pid u =
      (replaceEvent s eid
        { ev with participants := pre ++ mergeParticipante p u :: post },
       .ok (mergeParticipante p u)) ∧
    (u.id = none → (mergeParticipante p u).id = p.id) ∧
    (u.name = none → (mergeParticipante p u).name = p.name) ∧
    (u.email = none → (mergeParticipante p u).email = p.email) ∧
    (u.registration_date = none →
      (mergeParticipante p u).registration_date = p.registration_date) := by
  have hndd : (pre ++ p :: post).Pairwise (fun a b => a.id ≠ b.id) := hdec ▸ hnd
  obtain ⟨hnd1, hnd2, hnd3⟩ := List.pairwise_append.mp hndd
  have hpre : ∀ q ∈ pre, (q.id == pid) = false := by
    intro q hq
    have hqp : q.id ≠ p.id := hnd3 q hq p (by simp)
    simp [hid ▸ hqp]
  have hpost : ∀ q ∈ post, (q.id == pid) = false := by
    intro q hq
    have hpq : p.id ≠ q.id := (List.pairwise_cons.mp hnd2).1 q hq
    simp
    exact fun h => hpq (by rw [hid, h])
  have hfp : ev.participants.find? (fun q => q.id == pid) = some p := by
    rw [hdec]
    exact find?_middle hpre (by simp [hid])
  have hmap : ev.participants.map
      (fun q => if q.id == pid then mergeParticipante p u else q) =
      pre ++ mergeParticipante p u :: post := by
    rw [hdec, List.map_append, List.map_cons]
    have e1 : pre.map (fun q => if q.id == pid then mergeParticipante p u else q)
        = pre := map_id_on fun q hq => by rw [if_neg (by simp [hpre q hq])]
    have e3 : post.map (fun q => if q.id == pid then mergeParticipante p u else q)
        = post := map_id_on fun q hq => by rw [if_neg (by simp [hpost q hq])]
    rw [e1, e3, if_pos (by simp [hid])]
  refine ⟨?_, fun h => by simp [mergeParticipante, h],
    fun h => by simp [mergeParticipante, h],
    fun h => by simp [mergeParticipante, h],
    fun h => by simp [mergeParticipante, h]⟩
  rw [update_participant_eq_of_find u hev, hfp]
  show (replaceEvent s eid
      { ev with
        participants := ev.participants.map fun q => if q.id == pid then mergeParticipante p u else q },
    Except.ok (mergeParticipante p u)) =
    (replaceEvent s eid
      { ev with participants := pre ++ mergeParticipante p u :: post },
     Except.ok (mergeParticipante p u))
  rw [hmap]

/-- C9, witness: updating the name of `p2` in a two-participant event with
distinct ids rewrites exactly that entry in place and leaves `p1` as it was. -/
theorem C9_witness :
    update_participant [demoEvent] "e6" "p2" { name := some "Zoe" } =
      (replaceEvent [demoEvent] "e6"
        { demoEvent with participants :=
            [demoP1] ++ mergeParticipante demoP2 { name := some "Zoe" } :: [] },
       .ok (mergeParticipante demoP2 { name := some "Zoe" })) :=
  (C9_update_semantics [demoEvent] "e6" "p2" demoEvent demoP2
    { name := some "Zoe" } [demoP1] [] (by decide) (by decide) (by decide)
    (by decide)).1

/-- C10: the `order` parameter is never validated against asc and desc: for
any string, whenever the sort key is `date` or `name` the built query string
ends with the ORDER BY clause carrying the verbatim uppercased order value. -/
theorem C10_order_not_validated (d l : Option String) (sb ord q : String)
    (ps : List CosmosParam)
    (hsb : sb = "date" ∨ sb = "name")
    (h : list_events_query d l (some sb) ord = .ok (q, ps)) :
    endsWithB q (" ORDER BY c." ++ sb ++ " " ++ pyUpper ord) = true := by
  unfold list_events_query at h
  cases hdf : dateFilterStage d with
  | error e =>
    rw [hdf] at h
    exact absurd h (by simp)
  | ok qp =>
    rw [hdf] at h
    have h2 : Except.ok (sortStage (some sb) ord (locFilterStage l qp).1,
        (locFilterStage l qp).2) =
        (Except.ok (q, ps) : Except ApiError (String × List CosmosParam)) := h
    have hq : sortStage (some sb) ord (locFilterStage l qp).1 = q :=
      congrArg Prod.fst (Except.ok.inj h2)
    have hcond : (sb == "date" || sb == "name") = true := by
      rcases hsb with rfl | rfl <;> rfl
    rw [← hq]
    show endsWithB
      (if (sb == "date" || sb == "name") = true then
        (locFilterStage l qp).1 ++ " ORDER BY c." ++ sb ++ " " ++ pyUpper ord
       else (locFilterStage l qp).1)
      (" ORDER BY c." ++ sb ++ " " ++ pyUpper ord) = true
    have hassoc : (locFilterStage l qp).1 ++ " ORDER BY c." ++ sb ++ " "
          ++ pyUpper ord
        = (locFilterStage l qp).1
          ++ (" ORDER BY c." ++ sb ++ " " ++ pyUpper ord) := by
      simp only [String.append_assoc]
    rw [if_pos hcond, hassoc]
    exact endsWithB_append _ _

/-- C10, witness: with sort key `date` the query built from no filters ends
with the ORDER BY clause carrying the uppercased nonsense order value
`whatever`. -/
theorem C10_witness :
    endsWithB "SELECT * FROM c WHERE 1=1 ORDER BY c.date WHATEVER"
      (" ORDER BY c." ++ "date" ++ " " ++ pyUpper "whatever") = true :=
  C10_order_not_validated none none "date" "whatever"
    "SELECT * FROM c WHERE 1=1 ORDER BY c.date WHATEVER" [] (Or.inl rfl)
    (by decide)
